import Mathlib

/- Verification development for the ris_automator literature-acquisition
scripts (Merge_ris+cov.py, openAlex.py, autofill.py).  The pure and
control-flow logic of the scripts is embedded shallowly: Python strings
are Lean `String`s (or their character lists where character-level
reasoning is needed), Python dictionaries feeding the inverted-index code
are association lists, network and filesystem effects are oracles passed
as function arguments, and Python exceptions are `Except`/`Option`
results. -/

namespace RisAutomator

/-! ## Character-list prefix test

Models Python's `str.startswith` (and the prefix comparisons of the
regular-expression literals in `strip_doi`) on the character data of a
string. -/

/-- Boolean prefix test on character lists: `list_isPrefixOf l m` is true
iff `l` is an initial segment of `m`. -/
def list_isPrefixOf : List Char → List Char → Bool
  | [], _ => true
  | _ :: _, [] => false
  | a :: as, b :: bs => a = b && list_isPrefixOf as bs

/-- Python's `str.lower` on the character data (ASCII case mapping). -/
def py_lower (s : String) : String := ⟨s.data.map Char.toLower⟩

lemma list_isPrefixOf_append_self (l m : List Char) :
    list_isPrefixOf l (l ++ m) = true := by
  induction l with
  | nil => rfl
  | cons a as ih => simp [list_isPrefixOf, ih]

/-- A prefix test of `l` against `m ++ s` only inspects `m` when `l` is
no longer than `m`. -/
lemma list_isPrefixOf_append_of_le (l : List Char) (m s : List Char)
    (h : l.length ≤ m.length) :
    list_isPrefixOf l (m ++ s) = list_isPrefixOf l m := by
  induction l generalizing m with
  | nil => simp [list_isPrefixOf]
  | cons a as ih =>
    cases m with
    | nil => simp at h
    | cons b bs =>
      simp only [List.cons_append, list_isPrefixOf, List.append_eq]
      rw [ih bs (by simpa using h)]

/-! ## RIS citation-record formatter (`create_ris_entry`)

`Merge_ris+cov.py` lines 124-137 and `openAlex.py` lines 24-48 build the
record by appending lines in a fixed order: `TY`, `TI`, one `AU` per
author, then `PY`, `DO`, `AB` guarded by Python truthiness of `year`,
`doi` and `abstract`, and finally `ER`; the lines are joined with
newlines.  `year`, `doi` and `abstract` are modelled as strings whose
truthiness is being non-empty. -/

/-- The `ris_lines` list accumulated by `create_ris_entry` before the
final join. -/
def ris_lines_of (title : String) (authors : List String)
    (year doi abstract : String) : List String :=
  ["TY  - JOUR"]
    ++ ["TI  - " ++ title]
    ++ authors.map (fun a => "AU  - " ++ a)
    ++ (if year ≠ "" then ["PY  - " ++ year] else [])
    ++ (if doi ≠ "" then ["DO  - " ++ doi] else [])
    ++ (if abstract ≠ "" then ["AB  - " ++ abstract] else [])
    ++ ["ER  -"]

/-- `create_ris_entry` from the source: the RIS lines joined by `"\n"`. -/
def create_ris_entry (title : String) (authors : List String)
    (year doi abstract : String) : String :=
  String.intercalate "\n" (ris_lines_of title authors year doi abstract)

/-- A line carries a given RIS tag when the tag string is a prefix of the
line. -/
def has_tag (tag line : String) : Bool :=
  list_isPrefixOf tag.data line.data

lemma has_tag_append_eq (tag lit s : String)
    (h : tag.data.length ≤ lit.data.length) :
    has_tag tag (lit ++ s) = has_tag tag lit := by
  simp only [has_tag, String.data_append]
  exact list_isPrefixOf_append_of_le _ _ _ h

lemma filter_tag_map (p : String → Bool) (f : String → String)
    (h : ∀ a, p (f a) = true) (l : List String) :
    (l.map f).filter p = l.map f := by
  induction l with
  | nil => rfl
  | cons a as ih => simp [h, ih]

lemma filter_tag_map_nil (p : String → Bool) (f : String → String)
    (h : ∀ a, p (f a) = false) (l : List String) :
    (l.map f).filter p = [] := by
  induction l with
  | nil => rfl
  | cons a as ih => simp [h, ih]

/-! ## Browser options (Pipelines upload / extract, and autofill.py)

`upload_ris_files_to_covidence` (Merge_ris+cov.py lines 206-211) and
`extract_and_download_pdfs_from_covidence` (lines 343-349) build Firefox
options by successive `add_argument` calls; the line adding
`"--headless"` is commented out in both.  `autofill.py` line 16 starts
Chrome with no options object at all. -/

structure FirefoxOptions where
  arguments : List String
  binary_location : String
deriving DecidableEq

def add_argument (o : FirefoxOptions) (a : String) : FirefoxOptions :=
  { o with arguments := o.arguments ++ [a] }

/-- Options built in `upload_ris_files_to_covidence`; the
`add_argument("--headless")` line is commented out in the source. -/
def upload_firefox_options : FirefoxOptions :=
  let o : FirefoxOptions := { arguments := [], binary_location := "" }
  let o := add_argument o "--no-sandbox"
  let o := add_argument o "--disable-dev-shm-usage"
  let o := add_argument o "--disable-gpu"
  { o with binary_location := "/Applications/Firefox.app/Contents/MacOS/firefox" }

/-- Options built in `extract_and_download_pdfs_from_covidence`; the
`add_argument("--headless")` line is commented out in the source. -/
def extract_firefox_options : FirefoxOptions :=
  let o : FirefoxOptions := { arguments := [], binary_location := "" }
  let o := add_argument o "--no-sandbox"
  let o := add_argument o "--disable-dev-shm-usage"
  let o := add_argument o "--disable-gpu"
  { o with binary_location := "/Applications/Firefox.app/Contents/MacOS/firefox" }

/-- Arguments of the Chrome session started by `autofill.py`: none are
passed. -/
def autofill_chrome_arguments : List String := []

/-! ## Filter lemmas for the RIS line list -/

lemma has_tag_line (tag lit s : String)
    (hlen : tag.data.length ≤ lit.data.length) (b : Bool)
    (hval : has_tag tag lit = b) : has_tag tag (lit ++ s) = b := by
  rw [has_tag_append_eq _ _ _ hlen, hval]

lemma ris_filter_au (title : String) (authors : List String)
    (year doi abstract : String) :
    (ris_lines_of title authors year doi abstract).filter
        (fun l => has_tag "AU  - " l)
      = authors.map (fun a => "AU  - " ++ a) := by
  have hTI := has_tag_line "AU  - " "TI  - " title (by decide) false (by decide)
  have hPY := has_tag_line "AU  - " "PY  - " year (by decide) false (by decide)
  have hDO := has_tag_line "AU  - " "DO  - " doi (by decide) false (by decide)
  have hAB := has_tag_line "AU  - " "AB  - " abstract (by decide) false (by decide)
  have hAU : ∀ a, (fun l => has_tag "AU  - " l) ("AU  - " ++ a) = true := fun a =>
    has_tag_line "AU  - " "AU  - " a (by decide) true (by decide)
  have hTY : has_tag "AU  - " "TY  - JOUR" = false := by decide
  have hER : has_tag "AU  - " "ER  -" = false := by decide
  simp only [ris_lines_of, List.filter_append]
  rw [filter_tag_map _ _ hAU]
  by_cases hy : year = "" <;> by_cases hd : doi = "" <;>
    by_cases hb : abstract = "" <;>
    simp [hy, hd, hb, hTY, hER, hTI, hPY, hDO, hAB]

lemma ris_filter_ti (title : String) (authors : List String)
    (year doi abstract : String) :
    (ris_lines_of title authors year doi abstract).filter
        (fun l => has_tag "TI  - " l)
      = ["TI  - " ++ title] := by
  have hTI := has_tag_line "TI  - " "TI  - " title (by decide) true (by decide)
  have hPY := has_tag_line "TI  - " "PY  - " year (by decide) false (by decide)
  have hDO := has_tag_line "TI  - " "DO  - " doi (by decide) false (by decide)
  have hAB := has_tag_line "TI  - " "AB  - " abstract (by decide) false (by decide)
  have hAU : ∀ a, (fun l => has_tag "TI  - " l) ("AU  - " ++ a) = false := fun a =>
    has_tag_line "TI  - " "AU  - " a (by decide) false (by decide)
  have hTY : has_tag "TI  - " "TY  - JOUR" = false := by decide
  have hER : has_tag "TI  - " "ER  -" = false := by decide
  simp only [ris_lines_of, List.filter_append]
  rw [filter_tag_map_nil _ _ hAU]
  by_cases hy : year = "" <;> by_cases hd : doi = "" <;>
    by_cases hb : abstract = "" <;>
    simp [hy, hd, hb, hTY, hER, hTI, hPY, hDO, hAB]

lemma ris_filter_py (title : String) (authors : List String)
    (year doi abstract : String) :
    (ris_lines_of title authors year doi abstract).filter
        (fun l => has_tag "PY  - " l)
      = (if year ≠ "" then ["PY  - " ++ year] else []) := by
  have hTI := has_tag_line "PY  - " "TI  - " title (by decide) false (by decide)
  have hPY := has_tag_line "PY  - " "PY  - " year (by decide) true (by decide)
  have hDO := has_tag_line "PY  - " "DO  - " doi (by decide) false (by decide)
  have hAB := has_tag_line "PY  - " "AB  - " abstract (by decide) false (by decide)
  have hAU : ∀ a, (fun l => has_tag "PY  - " l) ("AU  - " ++ a) = false := fun a =>
    has_tag_line "PY  - " "AU  - " a (by decide) false (by decide)
  have hTY : has_tag "PY  - " "TY  - JOUR" = false := by decide
  have hER : has_tag "PY  - " "ER  -" = false := by decide
  simp only [ris_lines_of, List.filter_append]
  rw [filter_tag_map_nil _ _ hAU]
  by_cases hy : year = "" <;> by_cases hd : doi = "" <;>
    by_cases hb : abstract = "" <;>
    simp [hy, hd, hb, hTY, hER, hTI, hPY, hDO, hAB]

lemma ris_filter_do (title : String) (authors : List String)
    (year doi abstract : String) :
    (ris_lines_of title authors year doi abstract).filter
        (fun l => has_tag "DO  - " l)
      = (if doi ≠ "" then ["DO  - " ++ doi] else []) := by
  have hTI := has_tag_line "DO  - " "TI  - " title (by decide) false (by decide)
  have hPY := has_tag_line "DO  - " "PY  - " year (by decide) false (by decide)
  have hDO := has_tag_line "DO  - " "DO  - " doi (by decide) true (by decide)
  have hAB := has_tag_line "DO  - " "AB  - " abstract (by decide) false (by decide)
  have hAU : ∀ a, (fun l => has_tag "DO  - " l) ("AU  - " ++ a) = false := fun a =>
    has_tag_line "DO  - " "AU  - " a (by decide) false (by decide)
  have hTY : has_tag "DO  - " "TY  - JOUR" = false := by decide
  have hER : has_tag "DO  - " "ER  -" = false := by decide
  simp only [ris_lines_of, List.filter_append]
  rw [filter_tag_map_nil _ _ hAU]
  by_cases hy : year = "" <;> by_cases hd : doi = "" <;>
    by_cases hb : abstract = "" <;>
    simp [hy, hd, hb, hTY, hER, hTI, hPY, hDO, hAB]

lemma ris_filter_ab (title : String) (authors : List String)
    (year doi abstract : String) :
    (ris_lines_of title authors year doi abstract).filter
        (fun l => has_tag "AB  - " l)
      = (if abstract ≠ "" then ["AB  - " ++ abstract] else []) := by
  have hTI := has_tag_line "AB  - " "TI  - " title (by decide) false (by decide)
  have hPY := has_tag_line "AB  - " "PY  - " year (by decide) false (by decide)
  have hDO := has_tag_line "AB  - " "DO  - " doi (by decide) false (by decide)
  have hAB := has_tag_line "AB  - " "AB  - " abstract (by decide) true (by decide)
  have hAU : ∀ a, (fun l => has_tag "AB  - " l) ("AU  - " ++ a) = false := fun a =>
    has_tag_line "AB  - " "AU  - " a (by decide) false (by decide)
  have hTY : has_tag "AB  - " "TY  - JOUR" = false := by decide
  have hER : has_tag "AB  - " "ER  -" = false := by decide
  simp only [ris_lines_of, List.filter_append]
  rw [filter_tag_map_nil _ _ hAU]
  by_cases hy : year = "" <;> by_cases hd : doi = "" <;>
    by_cases hb : abstract = "" <;>
    simp [hy, hd, hb, hTY, hER, hTI, hPY, hDO, hAB]

/-- C7: for every title, author list, year, doi and abstract,
`create_ris_entry` returns the newline-join of its line list; that list
starts with `TY  - JOUR`, ends with `ER  -`, contains exactly one
`AU  - ` line per author in input order, always a `TI  - ` line, and
`PY`/`DO`/`AB` lines exactly when `year`/`doi`/`abstract` are
non-empty. -/
theorem C7_create_ris_entry_shape (title : String) (authors : List String)
    (year doi abstract : String) :
    create_ris_entry title authors year doi abstract
        = String.intercalate "\n" (ris_lines_of title authors year doi abstract)
    ∧ (ris_lines_of title authors year doi abstract).head? = some "TY  - JOUR"
    ∧ (ris_lines_of title authors year doi abstract).getLast? = some "ER  -"
    ∧ (ris_lines_of title authors year doi abstract).filter
        (fun l => has_tag "AU  - " l) = authors.map (fun a => "AU  - " ++ a)
    ∧ (ris_lines_of title authors year doi abstract).filter
        (fun l => has_tag "TI  - " l) = ["TI  - " ++ title]
    ∧ (ris_lines_of title authors year doi abstract).filter
        (fun l => has_tag "PY  - " l)
        = (if year ≠ "" then ["PY  - " ++ year] else [])
    ∧ (ris_lines_of title authors year doi abstract).filter
        (fun l => has_tag "DO  - " l)
        = (if doi ≠ "" then ["DO  - " ++ doi] else [])
    ∧ (ris_lines_of title authors year doi abstract).filter
        (fun l => has_tag "AB  - " l)
        = (if abstract ≠ "" then ["AB  - " ++ abstract] else []) := by
  refine ⟨rfl, rfl, ?_, ris_filter_au .., ris_filter_ti .., ris_filter_py ..,
    ris_filter_do .., ris_filter_ab ..⟩
  simp [ris_lines_of, List.getLast?_append, List.getLast?_cons]

/-- C6 counterexample: it is not the case that both Covidence browser
sessions of Merge_ris+cov.py are constructed with the headless option
enabled — the `add_argument("--headless")` call is commented out in
both. -/
theorem C6_headless_counterexample :
    ¬ ("--headless" ∈ upload_firefox_options.arguments
        ∧ "--headless" ∈ extract_firefox_options.arguments) := by
  decide

/-- C6 amended: every browser session the scripts create runs without
the headless option — neither Firefox options list of Merge_ris+cov.py
contains `--headless` (the source comments that line out), and the
Chrome session of autofill.py passes no arguments at all. -/
theorem C6_headless_amended :
    "--headless" ∉ upload_firefox_options.arguments
    ∧ "--headless" ∉ extract_firefox_options.arguments
    ∧ "--headless" ∉ autofill_chrome_arguments := by
  decide

/-! ## Mirror fallback (`fetch_via_scihub`, Merge_ris+cov.py 83-93)

The network download (`scihub_download` plus reading the produced file)
is modelled by an oracle `attempt` returning either the PDF bytes or the
exception message.  The embedding is instrumented: alongside the result
it also returns the list of mirrors actually attempted, in order, so
that "without attempting any later mirror" is provable. -/

/-- The fixed mirror list `SCI_HUB_MIRRORS` (Merge_ris+cov.py 44-50). -/
def SCI_HUB_MIRRORS : List String :=
  ["https://sci-hub.se", "https://sci-hub.st", "https://sci-hub.ru",
   "https://sci-hub.ee", "https://sci-hub.ren"]

/-- Textual form of the `last_exc` variable inside the final f-string:
Python renders `None` as `"None"` and an exception as its message. -/
def last_exc_str : Option String → String
  | none => "None"
  | some e => e

/-- Loop of `fetch_via_scihub`: try each mirror, return the first
successful download, remember the last exception, and after the loop
raise the RuntimeError message.  The second component is the list of
mirrors attempted. -/
def fetch_via_scihub (attempt : String → Except String (List Nat)) :
    List String → Option String → Except String (List Nat) × List String
  | [], last =>
      (.error ("All mirrors failed; last error: " ++ last_exc_str last), [])
  | m :: rest, _ =>
      match attempt m with
      | .ok bs => (.ok bs, [m])
      | .error e =>
          let r := fetch_via_scihub attempt rest (some e)
          (r.1, m :: r.2)

lemma fetch_via_scihub_ok (attempt : String → Except String (List Nat))
    (m : String) (post : List String) (v : List Nat) (hm : attempt m = .ok v) :
    ∀ (pre : List String) (last : Option String),
      (∀ m' ∈ pre, ∃ e, attempt m' = .error e) →
      fetch_via_scihub attempt (pre ++ m :: post) last = (.ok v, pre ++ [m]) := by
  intro pre
  induction pre with
  | nil => intro last _; simp [fetch_via_scihub, hm]
  | cons p pre ih =>
    intro last hpre
    obtain ⟨e, he⟩ := hpre p (by simp)
    have hrest := ih (some e) (fun m' hm' => hpre m' (by simp [hm']))
    simp [fetch_via_scihub, he, hrest]

lemma fetch_via_scihub_err (attempt : String → Except String (List Nat))
    (m : String) (e : String) (hm : attempt m = .error e) :
    ∀ (pre : List String) (last : Option String),
      (∀ m' ∈ pre, ∃ e', attempt m' = .error e') →
      fetch_via_scihub attempt (pre ++ [m]) last
        = (.error ("All mirrors failed; last error: " ++ e), pre ++ [m]) := by
  intro pre
  induction pre with
  | nil => intro last _; simp [fetch_via_scihub, hm, last_exc_str]
  | cons p pre ih =>
    intro last hpre
    obtain ⟨e', he'⟩ := hpre p (by simp)
    have hrest := ih (some e') (fun m' hm' => hpre m' (by simp [hm']))
    simp [fetch_via_scihub, he', hrest]

/-- C2: `fetch_via_scihub` tries the mirrors sequentially in list order:
it returns the bytes of the first mirror whose download succeeds, having
attempted exactly the mirrors up to and including that one, and when
every mirror fails it returns the RuntimeError message reporting the
last mirror's error, having attempted all mirrors. -/
theorem C2_fetch_via_scihub_fallback
    (attempt : String → Except String (List Nat)) (mirrors : List String) :
    (∀ pre m post v, mirrors = pre ++ m :: post →
      (∀ m' ∈ pre, ∃ e, attempt m' = .error e) → attempt m = .ok v →
      fetch_via_scihub attempt mirrors none = (.ok v, pre ++ [m]))
    ∧ (∀ pre m e, mirrors = pre ++ [m] →
      (∀ m' ∈ pre, ∃ e', attempt m' = .error e') → attempt m = .error e →
      fetch_via_scihub attempt mirrors none
        = (.error ("All mirrors failed; last error: " ++ e), mirrors)) := by
  constructor
  · intro pre m post v hsplit hpre hm
    rw [hsplit]
    exact fetch_via_scihub_ok attempt m post v hm pre none hpre
  · intro pre m e hsplit hpre hm
    rw [hsplit]
    exact fetch_via_scihub_err attempt m e hm pre none hpre

/-- Download oracle for the C2 witness: the third mirror succeeds, the
earlier ones fail. -/
def scihub_attempt_example : String → Except String (List Nat) :=
  fun m => if m = "https://sci-hub.ru" then .ok [37, 80, 68, 70]
           else .error ("no pdf at " ++ m)

/-- C2 witness: on the real mirror list, with the first two mirrors
failing and the third succeeding, exactly the first three mirrors are
attempted and the third mirror's bytes are returned. -/
theorem C2_fetch_via_scihub_fallback_witness :
    fetch_via_scihub scihub_attempt_example SCI_HUB_MIRRORS none
      = (.ok [37, 80, 68, 70],
         ["https://sci-hub.se", "https://sci-hub.st", "https://sci-hub.ru"]) :=
  (C2_fetch_via_scihub_fallback scihub_attempt_example SCI_HUB_MIRRORS).1
    ["https://sci-hub.se", "https://sci-hub.st"] "https://sci-hub.ru"
    ["https://sci-hub.ee", "https://sci-hub.ren"] [37, 80, 68, 70]
    rfl
    (fun m' hm' => ⟨"no pdf at " ++ m', by fin_cases hm' <;> rfl⟩)
    rfl

/-! ## Publisher-first PDF flow (Pipeline 1, Merge_ris+cov.py 75-81 and
454-461) -/

/-- One entry of a Crossref item's `"link"` list. -/
structure CrossrefLink where
  content_type : Option String
  url : String

/-- An HTTP response as used by `try_publisher_pdf`: `ok`, the
`content-type` header (defaulting to `""`), and the body. -/
structure HttpResp where
  ok : Bool
  content_type : String
  content : List Nat

/-- `try_publisher_pdf`: walk the item's links; for each link typed
`application/pdf`, fetch it and return the body when the response is ok
and its content-type starts with `application/pdf`; otherwise keep
going; return None at the end. -/
def try_publisher_pdf (get : String → HttpResp) :
    List CrossrefLink → Option (List Nat)
  | [] => none
  | l :: rest =>
    if l.content_type = some "application/pdf" then
      let r := get l.url
      if r.ok && list_isPrefixOf "application/pdf".data r.content_type.data then
        some r.content
      else try_publisher_pdf get rest
    else try_publisher_pdf get rest

/-- The PDF-retrieval flow of Pipeline 1 (`main`): publisher links
first; only when that yields None is the mirror fetch consulted, and a
mirror-fetch exception leaves the pdf as None.  The Bool records whether
the mirror fetch was invoked.  `scihub` is the outcome of
`fetch_via_scihub doi`. -/
def pipeline1_fetch_pdf (get : String → HttpResp) (links : List CrossrefLink)
    (scihub : Except String (List Nat)) : Option (List Nat) × Bool :=
  match try_publisher_pdf get links with
  | some b => (some b, false)
  | none =>
      (match scihub with
       | .ok b => some b
       | .error _ => none, true)

/-- C3: in Pipeline 1 the mirror fetch is invoked if and only if
`try_publisher_pdf` returned None, and when the publisher attempt
returns bytes those bytes are the pdf that is delivered. -/
theorem C3_publisher_first (get : String → HttpResp)
    (links : List CrossrefLink) (scihub : Except String (List Nat)) :
    ((pipeline1_fetch_pdf get links scihub).2 = true
      ↔ try_publisher_pdf get links = none)
    ∧ (∀ b, try_publisher_pdf get links = some b →
        (pipeline1_fetch_pdf get links scihub).1 = some b) := by
  cases h : try_publisher_pdf get links <;> simp [pipeline1_fetch_pdf, h]

/-- HTTP oracle for the C3 witness: every URL answers with an ok
`application/pdf` response. -/
def http_get_example : String → HttpResp :=
  fun _ => { ok := true, content_type := "application/pdf", content := [1, 2] }

/-- Link list for the C3 witness: one link typed `application/pdf`. -/
def links_example : List CrossrefLink :=
  [{ content_type := some "application/pdf", url := "https://pub.example/a.pdf" }]

/-- C3 witness: when the publisher link yields a pdf, those bytes are
delivered even though the mirror fetch would have failed. -/
theorem C3_publisher_first_witness :
    (pipeline1_fetch_pdf http_get_example links_example
        (.error "mirrors down")).1 = some [1, 2] :=
  (C3_publisher_first http_get_example links_example (.error "mirrors down")).2
    [1, 2] rfl

/-! ## Skip-and-continue RIS download loop
(`download_all_ris_files`, Merge_ris+cov.py 188-198)

`dl` models `download_ris_for_article` restricted to its inputs that
vary in the loop: the title and the 1-based file index; it returns the
saved path or None.  The loop keeps the truthy results in order (Python
`if ris_file:` also skips an empty-string path). -/

/-- `download_all_ris_files`: enumerate the titles from 1, download
each, and append the path when the download returned one. -/
def download_all_ris_files (dl : String → Nat → Option String)
    (article_titles : List String) : List String :=
  (article_titles.enumFrom 1).foldl
    (fun acc p =>
      match dl p.2 p.1 with
      | some f => if f = "" then acc else acc ++ [f]
      | none => acc) []

lemma download_all_go (dl : String → Nat → Option String)
    (hne : ∀ t i, dl t i ≠ some "") (l : List (Nat × String)) :
    ∀ acc : List String,
      l.foldl (fun acc p =>
        match dl p.2 p.1 with
        | some f => if f = "" then acc else acc ++ [f]
        | none => acc) acc
      = acc ++ l.filterMap (fun p => dl p.2 p.1) := by
  induction l with
  | nil => intro acc; simp
  | cons p rest ih =>
    intro acc
    cases h : dl p.2 p.1 with
    | none => simp [List.foldl_cons, h, ih]
    | some f =>
      have hf : ¬ f = "" := fun hf => hne p.2 p.1 (hf ▸ h)
      simp [List.foldl_cons, h, hf, ih]

/-- C4: a failed download is skipped and later titles are still
processed — the result is exactly the list of paths returned for the
titles (enumerated from 1) whose download succeeded, in input order. -/
theorem C4_download_all_skips_failures (dl : String → Nat → Option String)
    (article_titles : List String) (hne : ∀ t i, dl t i ≠ some "") :
    download_all_ris_files dl article_titles
      = (article_titles.enumFrom 1).filterMap (fun p => dl p.2 p.1) := by
  simpa [download_all_ris_files] using
    download_all_go dl hne (article_titles.enumFrom 1) []

/-- Download oracle for the C4 witness: the title "bad title" fails,
everything else saves `out.ris`. -/
def dl_example : String → Nat → Option String :=
  fun t _ => if t = "bad title" then none else some "out.ris"

/-- C4 witness: with the middle title failing, the first and third
titles are still downloaded. -/
theorem C4_download_all_skips_failures_witness :
    download_all_ris_files dl_example ["good one", "bad title", "good two"]
      = ["out.ris", "out.ris"] :=
  (C4_download_all_skips_failures dl_example
    ["good one", "bad title", "good two"]
    (by
      intro t i h
      unfold dl_example at h
      split at h
      · exact Option.noConfusion h
      · exact absurd (Option.some.inj h) (by decide))).trans (by decide)

/-! ## Abstract reconstruction from an inverted index
(`reconstruct_abstract`, openAlex.py 4-22 = Merge_ris+cov.py 111-122)

The inverted index (a Python dict from word to position list) is
modelled as an association list.  The source gathers every position,
returns `""` when there are none, otherwise allocates `max+1` empty
slots, writes each word at each of its positions, and joins the slots
with single spaces.  Python's `max` over the non-empty position list is
`foldl Nat.max 0` (positions are naturals). -/

/-- The second loop of `reconstruct_abstract`: write each word of the
index into the slot list at each of its positions. -/
def fill_words (inverted_index : List (String × List Nat))
    (abstract_words : List String) : List String :=
  inverted_index.foldl
    (fun a e => e.2.foldl (fun a2 i => a2.set i e.1) a) abstract_words

/-- `reconstruct_abstract` from the source. -/
def reconstruct_abstract (inverted_index : List (String × List Nat)) :
    String :=
  let positions := inverted_index.foldl (fun acc e => acc ++ e.2) []
  if positions.isEmpty then ""
  else
    let n_words := positions.foldl Nat.max 0 + 1
    String.intercalate " "
      (fill_words inverted_index (List.replicate n_words ""))

lemma gather_positions_eq (idx : List (String × List Nat)) :
    ∀ acc : List Nat,
      idx.foldl (fun acc e => acc ++ e.2) acc
        = acc ++ (idx.map Prod.snd).flatten := by
  induction idx with
  | nil => intro acc; simp
  | cons e rest ih => intro acc; simp [ih, List.append_assoc]

lemma foldl_set_length (w : String) (ps : List Nat) :
    ∀ a : List String,
      (ps.foldl (fun a2 i => a2.set i w) a).length = a.length := by
  induction ps with
  | nil => intro a; rfl
  | cons i rest ih => intro a; simp [ih]

lemma foldl_set_getElem_not_mem (w : String) (ps : List Nat) (p : Nat) :
    ∀ a : List String, p ∉ ps →
      (ps.foldl (fun a2 i => a2.set i w) a)[p]? = a[p]? := by
  induction ps with
  | nil => intro a _; rfl
  | cons i rest ih =>
    intro a hp
    have hpi : i ≠ p := fun h => hp (h ▸ List.mem_cons_self i rest)
    have hprest : p ∉ rest := fun h => hp (List.mem_cons_of_mem _ h)
    calc (rest.foldl (fun a2 i => a2.set i w) (a.set i w))[p]?
        = (a.set i w)[p]? := ih (a.set i w) hprest
      _ = a[p]? := List.getElem?_set_ne hpi

lemma foldl_set_getElem_mem (w : String) (ps : List Nat) (p : Nat) :
    ∀ a : List String, p ∈ ps → p < a.length →
      (ps.foldl (fun a2 i => a2.set i w) a)[p]? = some w := by
  induction ps with
  | nil => intro a hp _; cases hp
  | cons i rest ih =>
    intro a hp hlen
    by_cases hr : p ∈ rest
    · exact ih (a.set i w) hr (by simpa using hlen)
    · have hpi : p = i := by
        rcases List.mem_cons.mp hp with h | h
        · exact h
        · exact absurd h hr
      subst hpi
      calc (rest.foldl (fun a2 i => a2.set i w) (a.set p w))[p]?
          = (a.set p w)[p]? := foldl_set_getElem_not_mem w rest p _ hr
        _ = some w := by rw [List.getElem?_set_self]; simp [hlen]

lemma fill_words_length (idx : List (String × List Nat)) :
    ∀ a : List String, (fill_words idx a).length = a.length := by
  induction idx with
  | nil => intro a; rfl
  | cons e rest ih =>
    intro a
    show (fill_words rest (e.2.foldl (fun a2 i => a2.set i e.1) a)).length = _
    rw [ih, foldl_set_length]

lemma fill_words_not_mem (idx : List (String × List Nat)) (p : Nat) :
    ∀ a : List String, (∀ e ∈ idx, p ∉ e.2) →
      (fill_words idx a)[p]? = a[p]? := by
  induction idx with
  | nil => intro a _; rfl
  | cons e rest ih =>
    intro a h
    show (fill_words rest (e.2.foldl (fun a2 i => a2.set i e.1) a))[p]? = _
    rw [ih _ (fun e' he' => h e' (List.mem_cons_of_mem _ he')),
      foldl_set_getElem_not_mem _ _ _ _ (h e (List.mem_cons_self e rest))]

lemma fill_words_mem (idx : List (String × List Nat)) (p : Nat) (v : String) :
    ∀ a : List String, p < a.length → (∃ e ∈ idx, p ∈ e.2) →
      (∀ e ∈ idx, p ∈ e.2 → e.1 = v) →
      (fill_words idx a)[p]? = some v := by
  induction idx with
  | nil => intro a _ hex _; simp at hex
  | cons e rest ih =>
    intro a hlen hex hom
    show (fill_words rest (e.2.foldl (fun a2 i => a2.set i e.1) a))[p]? = _
    by_cases hr : ∃ e' ∈ rest, p ∈ e'.2
    · exact ih _ (by rw [foldl_set_length]; exact hlen) hr
        (fun e' he' => hom e' (List.mem_cons_of_mem _ he'))
    · have hpe : p ∈ e.2 := by
        rcases hex with ⟨e', he', hpe'⟩
        rcases List.mem_cons.mp he' with h | h
        · exact h ▸ hpe'
        · exact absurd ⟨e', h, hpe'⟩ hr
      push_neg at hr
      rw [fill_words_not_mem rest p _ hr,
        foldl_set_getElem_mem _ _ _ _ hpe hlen,
        hom e (List.mem_cons_self e rest) hpe]

lemma foldl_max_init (l : List Nat) : ∀ i : Nat, i ≤ l.foldl Nat.max i := by
  induction l with
  | nil => intro i; exact le_refl i
  | cons x rest ih =>
    intro i
    exact le_trans (Nat.le_max_left i x) (ih (Nat.max i x))

lemma le_foldl_max (l : List Nat) : ∀ (i a : Nat), a ∈ l →
    a ≤ l.foldl Nat.max i := by
  induction l with
  | nil => intro _ _ ha; cases ha
  | cons x rest ih =>
    intro i a ha
    rcases List.mem_cons.mp ha with h | h
    · subst h
      exact le_trans (Nat.le_max_right i a) (foldl_max_init rest (Nat.max i a))
    · exact ih (Nat.max i x) a h

lemma foldl_max_le (l : List Nat) : ∀ (i b : Nat), i ≤ b →
    (∀ a ∈ l, a ≤ b) → l.foldl Nat.max i ≤ b := by
  induction l with
  | nil => intro i b hi _; exact hi
  | cons x rest ih =>
    intro i b hi h
    exact ih (Nat.max i x) b
      (Nat.max_le.mpr ⟨hi, h x (List.mem_cons_self x rest)⟩)
      (fun a ha => h a (List.mem_cons_of_mem _ ha))

/-- C1: for a non-empty word list, reconstructing from any inverted
index whose position lists exactly cover the word positions reproduces
the words joined by single spaces; the empty index yields the empty
string. -/
theorem C1_reconstruct_abstract_roundtrip (ws : List String)
    (idx : List (String × List Nat)) (hne : ws ≠ [])
    (hvalid : ∀ e ∈ idx, ∀ p ∈ e.2, ws[p]? = some e.1)
    (hcover : ∀ p, p < ws.length → ∃ e ∈ idx, p ∈ e.2) :
    reconstruct_abstract idx = String.intercalate " " ws
    ∧ reconstruct_abstract [] = "" := by
  refine ⟨?_, rfl⟩
  have hlen0 : 0 < ws.length := List.length_pos.mpr hne
  have hmem_pos : ∀ p, p ∈ (idx.map Prod.snd).flatten ↔ ∃ e ∈ idx, p ∈ e.2 := by
    intro p
    simp only [List.mem_flatten, List.mem_map]
    constructor
    · rintro ⟨s, ⟨e, he, rfl⟩, hp⟩; exact ⟨e, he, hp⟩
    · rintro ⟨e, he, hp⟩; exact ⟨e.2, ⟨e, he, rfl⟩, hp⟩
  have hpos_lt : ∀ p ∈ (idx.map Prod.snd).flatten, p < ws.length := by
    intro p hp
    rcases (hmem_pos p).mp hp with ⟨e, he, hpe⟩
    exact (List.getElem?_eq_some.mp (hvalid e he p hpe)).1
  have htop : ws.length - 1 ∈ (idx.map Prod.snd).flatten := by
    rcases hcover (ws.length - 1) (Nat.sub_lt hlen0 Nat.one_pos) with ⟨e, he, hp⟩
    exact (hmem_pos _).mpr ⟨e, he, hp⟩
  have hne_pos : (idx.map Prod.snd).flatten ≠ [] :=
    fun h => by rw [h] at htop; cases htop
  have hmax : (idx.map Prod.snd).flatten.foldl Nat.max 0 = ws.length - 1 :=
    le_antisymm
      (foldl_max_le _ 0 _ (Nat.zero_le _)
        (fun a ha => Nat.le_sub_one_of_lt (hpos_lt a ha)))
      (le_foldl_max _ 0 _ htop)
  have hnw : (idx.map Prod.snd).flatten.foldl Nat.max 0 + 1 = ws.length := by
    rw [hmax]; exact Nat.succ_pred_eq_of_pos hlen0
  have hfill : fill_words idx (List.replicate ws.length "") = ws := by
    apply List.ext_getElem?
    intro p
    by_cases hp : p < ws.length
    · rcases hcover p hp with ⟨e, he, hpe⟩
      have hv : ws[p]? = some (ws.get ⟨p, hp⟩) := List.getElem?_eq_getElem hp
      rw [fill_words_mem idx p (ws.get ⟨p, hp⟩) _
        (by simpa using hp) ⟨e, he, hpe⟩
        (fun e' he' hpe' => by
          have := hvalid e' he' p hpe'
          rw [hv] at this
          exact (Option.some.inj this).symm),
        hv]
    · rw [List.getElem?_eq_none (by simpa [fill_words_length] using Nat.le_of_not_lt hp),
        List.getElem?_eq_none (Nat.le_of_not_lt hp)]
  show reconstruct_abstract idx = _
  rw [reconstruct_abstract]
  simp only [gather_positions_eq idx [], List.nil_append]
  rw [if_neg (by simp [List.isEmpty_iff, hne_pos]), hnw, hfill]

/-- Inverted index for the C1 witness: the abstract
`"the cat sat on the mat"` as OpenAlex would store it. -/
def inverted_index_example : List (String × List Nat) :=
  [("the", [0, 4]), ("cat", [1]), ("sat", [2]), ("on", [3]), ("mat", [5])]

/-- C1 witness: reconstructing the example index reproduces the original
six words joined by spaces. -/
theorem C1_reconstruct_abstract_roundtrip_witness :
    reconstruct_abstract inverted_index_example
      = String.intercalate " " ["the", "cat", "sat", "on", "the", "mat"]
    ∧ reconstruct_abstract [] = "" :=
  C1_reconstruct_abstract_roundtrip
    ["the", "cat", "sat", "on", "the", "mat"] inverted_index_example
    (by decide) (by decide) (by decide)

/-! ## Single-article RIS download
(`download_ris_for_article`, Merge_ris+cov.py 139-186)

Oracles: `search` is the outcome of the OpenAlex request — the
`results` list on success, the exception message on request error (a
missing `results` key is the empty list); `write` is the attempt to
save a file; `exists_size` is the post-write filesystem query, `none`
when the file does not exist, otherwise its size. -/

/-- The fields of an OpenAlex work used by the script.  The publication
year is kept in its formatted form, `""` when absent (the `.get`
default); a `none` abstract index covers both an absent key and a null
value, `some []` an empty (falsy) dict. -/
structure OpenAlexWork where
  display_name : Option String
  doi : Option String
  publication_year : String
  authorships : List (Option String)
  abstract_inverted_index : Option (List (String × List Nat))

/-- The RIS content the script builds for the first search result:
title defaulting to `"No Title"`, authors with a present non-empty
display name, the abstract reconstructed only from a present truthy
inverted index, all passed to `create_ris_entry`.  A `none` doi is
mapped to `""`, which has the same Python falsiness. -/
def ris_content_of (w : OpenAlexWork) : String :=
  create_ris_entry (w.display_name.getD "No Title")
    (w.authorships.filterMap
      (fun o => match o with
        | some name => if name = "" then none else some name
        | none => none))
    w.publication_year
    (w.doi.getD "")
    (match w.abstract_inverted_index with
     | none => ""
     | some ii => if ii = [] then "" else reconstruct_abstract ii)

/-- `download_ris_for_article`: bail out on a request error or an empty
result list, build the RIS record for the first result, write it to
`{file_index}.ris` in the output folder, bail out on a write error, and
return the filename only when the written file exists with positive
size. -/
def download_ris_for_article (search : Except String (List OpenAlexWork))
    (write : String → String → Except String Unit)
    (exists_size : String → Option Nat)
    (output_folder : String) (file_index : Nat) : Option String :=
  match search with
  | .error _ => none
  | .ok results =>
    match results with
    | [] => none
    | first :: _ =>
      let filename := output_folder ++ "/" ++ toString file_index ++ ".ris"
      match write filename (ris_content_of first) with
      | .error _ => none
      | .ok _ =>
        match exists_size filename with
        | some n => if n > 0 then some filename else none
        | none => none

/-- C5: `download_ris_for_article` returns a filename exactly when the
search succeeded with at least one result, the write succeeded, and the
written file exists with positive size; any returned path is the
`{file_index}.ris` path, and in every other case the result is None. -/
theorem C5_download_ris_nonempty_file
    (search : Except String (List OpenAlexWork))
    (write : String → String → Except String Unit)
    (exists_size : String → Option Nat)
    (output_folder : String) (file_index : Nat) :
    (∀ r, download_ris_for_article search write exists_size
        output_folder file_index = some r →
      r = output_folder ++ "/" ++ toString file_index ++ ".ris")
    ∧ (download_ris_for_article search write exists_size
        output_folder file_index
        = some (output_folder ++ "/" ++ toString file_index ++ ".ris")
      ↔ ∃ first rest, search = .ok (first :: rest)
          ∧ write (output_folder ++ "/" ++ toString file_index ++ ".ris")
              (ris_content_of first) = .ok ()
          ∧ ∃ n, exists_size
              (output_folder ++ "/" ++ toString file_index ++ ".ris")
              = some n ∧ 0 < n) := by
  cases hs : search with
  | error e => simp [download_ris_for_article, hs]
  | ok results =>
    cases results with
    | nil => simp [download_ris_for_article, hs]
    | cons first rest =>
      cases hw : write (output_folder ++ "/" ++ toString file_index ++ ".ris")
          (ris_content_of first) with
      | error e => simp [download_ris_for_article, hs, hw]
      | ok u =>
        cases hf : exists_size
            (output_folder ++ "/" ++ toString file_index ++ ".ris") with
        | none => simp [download_ris_for_article, hs, hw, hf]
        | some n =>
          by_cases hn : n > 0 <;>
            simp [download_ris_for_article, hs, hw, hf, hn,
              Nat.pos_iff_ne_zero] <;> omega

/-- OpenAlex work for the C5 witness. -/
def work_example : OpenAlexWork :=
  { display_name := some "A Title", doi := some "10.1/xyz",
    publication_year := "2021",
    authorships := [some "Ada Lovelace", none],
    abstract_inverted_index := some [("hi", [0])] }

/-- Write oracle for the C5 witness: every write succeeds. -/
def write_ok_example : String → String → Except String Unit :=
  fun _ _ => .ok ()

/-- Filesystem oracle for the C5 witness: every file exists with size
42. -/
def exists_size_example : String → Option Nat := fun _ => some 42

/-- C5 witness: with one search result, a successful write and a
non-empty file, the `{file_index}.ris` path is returned. -/
theorem C5_download_ris_nonempty_file_witness :
    download_ris_for_article (.ok [work_example]) write_ok_example
        exists_size_example "out" 3
      = some ("out" ++ "/" ++ toString 3 ++ ".ris") :=
  (C5_download_ris_nonempty_file (.ok [work_example]) write_ok_example
      exists_size_example "out" 3).2.mpr
    ⟨work_example, [], rfl, rfl, 42, rfl, by decide⟩

/-! ## Fuzzy best match (`best_match`, Merge_ris+cov.py 65-72)

`fuzz.partial_ratio` is modelled by a scoring oracle
`score : String → String → Nat`; the source applies it to the
lowercased query and the lowercased first title of each item and keeps
an item only when its score strictly exceeds the best so far, starting
from `(None, 0)`. -/

/-- A Crossref item as consumed by `best_match`: its `"title"` list
(`it.get("title", [""])` makes a missing key the list `[""]`). -/
structure CrossrefItem where
  title : List String
deriving DecidableEq

/-- `it.get("title", [""])[0]`: the first title, `""` when the default
list is used. -/
def first_title (it : CrossrefItem) : String := it.title.headD ""

/-- The loop of `best_match` over the items. -/
def best_match_go (s : CrossrefItem → Nat) :
    List CrossrefItem → Option CrossrefItem × Nat → Option CrossrefItem × Nat
  | [], acc => acc
  | it :: rest, (best_item, best_score) =>
      if s it > best_score then best_match_go s rest (some it, s it)
      else best_match_go s rest (best_item, best_score)

/-- `best_match`: fold the strict-improvement loop over the items from
`(None, 0)`, scoring each item by the oracle on the lowercased query
and first title. -/
def best_match (score : String → String → Nat) (items : List CrossrefItem)
    (query : String) : Option CrossrefItem × Nat :=
  best_match_go
    (fun it => score (py_lower query) (py_lower (first_title it)))
    items (none, 0)

lemma best_match_go_score (s : CrossrefItem → Nat) (l : List CrossrefItem) :
    ∀ bi bs, (best_match_go s l (bi, bs)).2
      = l.foldl (fun m x => Nat.max m (s x)) bs := by
  induction l with
  | nil => intro bi bs; rfl
  | cons it rest ih =>
    intro bi bs
    by_cases h : s it > bs
    · simp only [best_match_go, if_pos h, List.foldl_cons]
      rw [ih]
      congr 1
      exact (Nat.max_eq_right (Nat.le_of_lt h)).symm
    · simp only [best_match_go, if_neg h, List.foldl_cons]
      rw [ih]
      congr 1
      exact (Nat.max_eq_left (Nat.le_of_not_lt h)).symm

/-- Characterization of the loop: either no item ever beat the incoming
score and the accumulator is returned unchanged, or the returned item is
the first item attaining the final maximum — everything before it
scores strictly lower, everything after it at most as much. -/
lemma best_match_go_item (s : CrossrefItem → Nat) (l : List CrossrefItem) :
    ∀ bi bs,
      (best_match_go s l (bi, bs) = (bi, bs) ∧ ∀ x ∈ l, s x ≤ bs)
      ∨ (∃ pre it post, l = pre ++ it :: post
          ∧ (best_match_go s l (bi, bs)).1 = some it
          ∧ (best_match_go s l (bi, bs)).2 = s it
          ∧ bs < s it
          ∧ (∀ x ∈ pre, s x < s it)
          ∧ (∀ x ∈ post, s x ≤ s it)) := by
  induction l with
  | nil => intro bi bs; left; exact ⟨rfl, by simp⟩
  | cons it0 rest ih =>
    intro bi bs
    by_cases h : s it0 > bs
    · right
      have heq : best_match_go s (it0 :: rest) (bi, bs)
          = best_match_go s rest (some it0, s it0) := by
        simp [best_match_go, h]
      rcases ih (some it0) (s it0) with ⟨hr, hall⟩ |
        ⟨pre, it, post, hsplit, h1, h2, h3, h4, h5⟩
      · exact ⟨[], it0, rest, rfl, by rw [heq, hr], by rw [heq, hr], h,
          by simp, hall⟩
      · refine ⟨it0 :: pre, it, post, by simp [hsplit],
          by rw [heq]; exact h1, by rw [heq]; exact h2,
          lt_trans h h3, ?_, h5⟩
        intro x hx
        rcases List.mem_cons.mp hx with rfl | hx
        · exact h3
        · exact h4 x hx
    · have heq : best_match_go s (it0 :: rest) (bi, bs)
          = best_match_go s rest (bi, bs) := by simp [best_match_go, h]
      rcases ih bi bs with ⟨hr, hall⟩ |
        ⟨pre, it, post, hsplit, h1, h2, h3, h4, h5⟩
      · left
        refine ⟨by rw [heq, hr], ?_⟩
        intro x hx
        rcases List.mem_cons.mp hx with rfl | hx
        · exact Nat.le_of_not_lt h
        · exact hall x hx
      · right
        refine ⟨it0 :: pre, it, post, by simp [hsplit],
          by rw [heq]; exact h1, by rw [heq]; exact h2, h3, ?_, h5⟩
        intro x hx
        rcases List.mem_cons.mp hx with rfl | hx
        · exact lt_of_le_of_lt (Nat.le_of_not_lt h) h3
        · exact h4 x hx

/-- Scoring oracle scoring every pair 0 (partial_ratio does return 0,
e.g. on disjoint alphabets). -/
def zero_score : String → String → Nat := fun _ _ => 0

/-- Item for the best_match counterexamples and witnesses. -/
def item_example : CrossrefItem := { title := ["Methane emissions"] }

/-- C8 counterexample: on a non-empty list whose only item scores 0,
`best_match` returns no item at all — the claim that it always returns
an item of the list attaining the maximal score fails. -/
theorem C8_best_match_counterexample :
    ¬ ∃ it ∈ [item_example],
      (best_match zero_score [item_example] "query").1 = some it := by
  decide

/-- C8 amended: the returned score is always the maximal score over the
items (0 for an empty list); any returned item is an element of the
list attaining that maximal score, and is the earliest such element —
every earlier item scores strictly lower and every later item at most
as much; and an item is guaranteed whenever some item scores
positively. -/
theorem C8_best_match_amended (score : String → String → Nat)
    (items : List CrossrefItem) (query : String) :
    ((best_match score items query).2
      = items.foldl
          (fun m x =>
            Nat.max m (score (py_lower query) (py_lower (first_title x))))
          0)
    ∧ (∀ it, (best_match score items query).1 = some it →
        ∃ pre post, items = pre ++ it :: post
          ∧ score (py_lower query) (py_lower (first_title it))
              = (best_match score items query).2
          ∧ (∀ x ∈ pre, score (py_lower query) (py_lower (first_title x))
              < score (py_lower query) (py_lower (first_title it)))
          ∧ (∀ x ∈ post, score (py_lower query) (py_lower (first_title x))
              ≤ score (py_lower query) (py_lower (first_title it))))
    ∧ ((∃ it ∈ items, 0 < score (py_lower query) (py_lower (first_title it))) →
        ∃ it, (best_match score items query).1 = some it) := by
  refine ⟨best_match_go_score _ items none 0, ?_, ?_⟩
  · intro it hit
    rcases best_match_go_item
        (fun it => score (py_lower query) (py_lower (first_title it)))
        items none 0
      with ⟨hr, _⟩ | ⟨pre, it', post, hsplit, h1, h2, h3, h4, h5⟩
    · rw [show best_match score items query
          = best_match_go
              (fun it => score (py_lower query) (py_lower (first_title it)))
              items (none, 0) from rfl, hr] at hit
      exact Option.noConfusion hit
    · have hit' : it' = it := Option.some.inj (h1.symm.trans hit)
      subst hit'
      exact ⟨pre, post, hsplit, h2.symm, h4, h5⟩
  · intro hex
    rcases best_match_go_item
        (fun it => score (py_lower query) (py_lower (first_title it)))
        items none 0
      with ⟨_, hall⟩ | ⟨pre, it', post, _, h1, _⟩
    · rcases hex with ⟨it, hmem, hpos⟩
      exact absurd (hall it hmem) (Nat.not_le_of_lt hpos)
    · exact ⟨it', h1⟩

/-- Scoring oracle for the C8 witness: the matching title scores 90,
everything else 10. -/
def score_example : String → String → Nat :=
  fun _ t => if t = "attention is all you need" then 90 else 10

/-- Item list for the C8 witness. -/
def items_example : List CrossrefItem :=
  [{ title := ["Other Paper"] }, { title := ["Attention Is All You Need"] }]

/-- C8 witness: with a positively scoring item present, an item is
returned. -/
theorem C8_best_match_amended_witness :
    ∃ it, (best_match score_example items_example
      "Attention Is All You Need").1 = some it :=
  (C8_best_match_amended score_example items_example
      "Attention Is All You Need").2.2
    ⟨{ title := ["Attention Is All You Need"] }, by decide, by decide⟩

/-- C9: when every item scores 0 against the query, `best_match`
returns `(None, 0)`, so even a non-empty list yields no item. -/
theorem C9_best_match_none_on_zero (score : String → String → Nat)
    (items : List CrossrefItem) (query : String)
    (hzero : ∀ it ∈ items,
      score (py_lower query) (py_lower (first_title it)) = 0) :
    best_match score items query = (none, 0) := by
  rcases best_match_go_item
      (fun it => score (py_lower query) (py_lower (first_title it)))
      items none 0
    with ⟨hr, _⟩ | ⟨pre, it, post, hsplit, _, _, h3, _, _⟩
  · exact hr
  · exfalso
    have hmem : it ∈ items := by
      rw [hsplit]
      exact List.mem_append_right _ (List.mem_cons_self it post)
    rw [hzero it hmem] at h3
    exact Nat.lt_irrefl 0 h3

/-- C9 witness: a non-empty list whose item scores 0 yields
`(None, 0)`. -/
theorem C9_best_match_none_on_zero_witness :
    best_match zero_score [item_example] "query" = (none, 0) :=
  C9_best_match_none_on_zero zero_score [item_example] "query"
    (fun _ _ => rfl)

/-! ## DOI stripping (`strip_doi`, Merge_ris+cov.py 95-99)

`strip_doi` strips surrounding whitespace and, when the lowercased text
begins with `"http"`, removes every occurrence of the regular expression
`https?://(dx\.)?doi\.org/`, case-insensitively.  Modelled on character
lists: `py_strip` is `str.strip` over ASCII whitespace, and the
substitution is a single left-to-right scan removing each of the four
literal alternatives of the pattern (at a given position at most one of
them can match), exactly as `re.sub` does — the scan never revisits text
produced by a removal. -/

/-- ASCII whitespace as stripped by `str.strip`. -/
def py_isspace (c : Char) : Bool :=
  c = ' ' || c = '\t' || c = '\n' || c = '\r' || c = '\x0b' || c = '\x0c'

/-- `str.strip`: drop whitespace from the front, then from the back. -/
def py_strip (s : List Char) : List Char :=
  ((s.dropWhile py_isspace).reverse.dropWhile py_isspace).reverse

/-- Length of the DOI-prefix alternative matching at the head of `cs`,
if any, in the greedy order of the pattern `https?://(dx\.)?doi\.org/`
(case-insensitive). -/
def match_doi (cs : List Char) : Option Nat :=
  if list_isPrefixOf "https://dx.doi.org/".data (cs.map Char.toLower) then
    some 19
  else if list_isPrefixOf "https://doi.org/".data (cs.map Char.toLower) then
    some 16
  else if list_isPrefixOf "http://dx.doi.org/".data (cs.map Char.toLower) then
    some 18
  else if list_isPrefixOf "http://doi.org/".data (cs.map Char.toLower) then
    some 15
  else none

/-- The left-to-right substitution scan; a positive `skip` counts the
characters still inside an already-matched occurrence. -/
def re_sub_doi_go : List Char → Nat → List Char
  | [], _ => []
  | _ :: rest, Nat.succ k => re_sub_doi_go rest k
  | c :: rest, 0 =>
      match match_doi (c :: rest) with
      | some k => re_sub_doi_go rest (k - 1)
      | none => c :: re_sub_doi_go rest 0

/-- `re.sub(r"https?://(dx\.)?doi\.org/", "", text, flags=re.I)`. -/
def re_sub_doi (cs : List Char) : List Char := re_sub_doi_go cs 0

/-- `strip_doi` from the source. -/
def strip_doi (s : List Char) : List Char :=
  let text := py_strip s
  if list_isPrefixOf "http".data (text.map Char.toLower) then re_sub_doi text
  else text

lemma dropWhile_dropWhile (p : Char → Bool) (l : List Char) :
    (l.dropWhile p).dropWhile p = l.dropWhile p := by
  induction l with
  | nil => rfl
  | cons a as ih =>
    by_cases h : p a
    · simp [List.dropWhile_cons, h, ih]
    · simp [List.dropWhile_cons, h]

lemma dropWhile_head_false (p : Char → Bool) (l : List Char) (a : Char)
    (ha : l.head? = some a) (hpa : p a = false) : l.dropWhile p = l := by
  cases l with
  | nil => cases ha
  | cons b bs =>
    have hba : b = a := Option.some.inj ha
    subst hba
    simp [List.dropWhile_cons, hpa]

lemma head_false_of_dropWhile_eq (p : Char → Bool) (l : List Char) (a : Char)
    (heq : l.dropWhile p = l) (ha : l.head? = some a) : p a = false := by
  cases l with
  | nil => exact Option.noConfusion ha
  | cons b bs =>
    have hba : a = b := (Option.some.inj ha).symm
    subst hba
    by_cases h : p a = true
    · exfalso
      rw [List.dropWhile_cons, if_pos h] at heq
      have hlen := congrArg List.length heq
      have hle : (bs.dropWhile p).length ≤ bs.length :=
        (List.dropWhile_suffix p).length_le
      simp only [List.length_cons] at hlen
      omega
    · simp only [Bool.not_eq_true] at h
      exact h

lemma getLast?_of_suffix (u v : List Char) (hvne : v ≠ []) (h : v <:+ u) :
    v.getLast? = u.getLast? := by
  obtain ⟨w, rfl⟩ := h
  rw [List.getLast?_append]
  cases hl : v.getLast? with
  | none => exact absurd (List.getLast?_eq_none_iff.mp hl) hvne
  | some a => rfl

/-- `py_strip` fixes the reversal of any list that is already
left-trimmed and whose last element is not whitespace. -/
lemma py_strip_reverse_fixed (v : List Char)
    (hv : v.dropWhile py_isspace = v)
    (hlast : ∀ a, v.getLast? = some a → py_isspace a = false) :
    py_strip v.reverse = v.reverse := by
  cases hg : v.getLast? with
  | none =>
    have hnil : v = [] := List.getLast?_eq_none_iff.mp hg
    subst hnil
    rfl
  | some a =>
    have hpa := hlast a hg
    have hhead : v.reverse.head? = some a := by
      rw [List.head?_reverse]
      exact hg
    have h1 : v.reverse.dropWhile py_isspace = v.reverse :=
      dropWhile_head_false py_isspace _ a hhead hpa
    show ((v.reverse.dropWhile py_isspace).reverse.dropWhile
        py_isspace).reverse = v.reverse
    rw [h1, List.reverse_reverse, hv]

lemma py_strip_idem (s : List Char) : py_strip (py_strip s) = py_strip s := by
  show py_strip (((s.dropWhile py_isspace).reverse.dropWhile
      py_isspace).reverse)
    = ((s.dropWhile py_isspace).reverse.dropWhile py_isspace).reverse
  apply py_strip_reverse_fixed
  · exact dropWhile_dropWhile py_isspace _
  · intro a ha
    have hvne : (s.dropWhile py_isspace).reverse.dropWhile py_isspace ≠ [] := by
      intro h
      rw [h] at ha
      exact Option.noConfusion ha
    have h2 : (s.dropWhile py_isspace).reverse.getLast? = some a := by
      rw [← getLast?_of_suffix _ _ hvne (List.dropWhile_suffix py_isspace)]
      exact ha
    have h3 : (s.dropWhile py_isspace).head? = some a := by
      rw [← List.getLast?_reverse]
      exact h2
    exact head_false_of_dropWhile_eq py_isspace _ a
      (dropWhile_dropWhile py_isspace s) h3

/-- C10 counterexample: `strip_doi` is not idempotent — on
`"https://doi.org/ 10.1/abc"` the first application leaves
`" 10.1/abc"` (the removal exposes a leading space), and the second
application strips that space. -/
theorem C10_strip_doi_counterexample :
    strip_doi (strip_doi ("https://doi.org/ 10.1/abc").data)
      ≠ strip_doi ("https://doi.org/ 10.1/abc").data := by
  decide

/-- C10 amended: `strip_doi` is idempotent on every input whose
stripped text does not begin with `"http"` (case-insensitively); on the
regex branch a removal can expose surrounding whitespace or a new
pattern occurrence, and a second application then changes the result. -/
theorem C10_strip_doi_idem_non_http (s : List Char)
    (h : list_isPrefixOf "http".data
      ((py_strip s).map Char.toLower) = false) :
    strip_doi (strip_doi s) = strip_doi s := by
  have h1 : strip_doi s = py_strip s := by
    rw [strip_doi]
    simp only [h, Bool.false_eq_true, if_false]
  rw [h1, strip_doi]
  simp only [py_strip_idem s, h, Bool.false_eq_true, if_false]

/-- C10 witness: a plain DOI with surrounding whitespace is stripped
once and a second application leaves it unchanged. -/
theorem C10_strip_doi_idem_non_http_witness :
    strip_doi (strip_doi ("  10.48550/arXiv.1706.03762  ").data)
      = strip_doi ("  10.48550/arXiv.1706.03762  ").data :=
  C10_strip_doi_idem_non_http ("  10.48550/arXiv.1706.03762  ").data
    (by decide)

end RisAutomator
